import Mathlib

/-!
# ez_sticks: configuration types

A shallow embedding of `src/config_types.hpp`: the movement modes, the stick
curve generator `make_curve`, the mode descriptor `StickMode` and the
compile-time mode table `ModeMap`, followed by the properties of the
specification that concern them.

Conventions of the embedding:
* `std::array<T, N>` is a list carrying a proof that its length is `N`;
  `operator[]` is unchecked in the source, so a read is an `Option` that is
  `none` exactly when the index falls outside the array;
* `int` values are `Int`;
* `float` values are idealised as real numbers.
-/

namespace EzSticks

/-- The array type `std::array<T, N>`: `N` elements, in order. -/
abbrev StdArray (T : Type) (N : Nat) : Type := { xs : List T // xs.length = N }

namespace StdArray

variable {T : Type} {N : Nat}

/-- Value initialisation `std::array<T, N> a = {}` with the element `v`. -/
def fill (N : Nat) (v : T) : StdArray T N := ⟨List.replicate N v, by simp⟩

/-- Member `size()`. -/
def size (_a : StdArray T N) : Nat := N

/-- An in-range read `a[i]`. -/
def get (a : StdArray T N) (i : Fin N) : T :=
  a.val.get ⟨i.val, by have h := a.property; have hi := i.isLt; omega⟩

/-- The assignment `a[i] = v`. -/
def set (a : StdArray T N) (i : Nat) (v : T) : StdArray T N :=
  ⟨a.val.set i v, by simp [a.property]⟩

/-- The unchecked read `a[idx]` with an `int` index: `none` when the index is
negative or past the end (undefined behaviour in the source). -/
def subscript (a : StdArray T N) (idx : Int) : Option T :=
  if 0 ≤ idx then a.val[idx.toNat]? else none

end StdArray

/-- Options for how the stick will move the mouse, scroll wheel, etc. -/
inductive MovementMode where
  | REWIND
  | STUTTER
  | SIMPLE
  | CHASE
  | SCROLL
  deriving DecidableEq, Repr

/-- A curve used to interpolate stick positions: `std::array<int16_t, 10>`. -/
abbrev StickCurve : Type := StdArray Int 10

/-- Constant `INVERT_AXIS`. -/
def INVERT_AXIS : Int := -1

/-- Constant `NO_INVERT_AXIS`. -/
def NO_INVERT_AXIS : Int := 1

/-- Constant `NULL_AXIS`. -/
def NULL_AXIS : Int := 0

/-- Modelled from the spec: `rgb` of `helpers.hpp`, which is not part of the
sources at hand; the spec calls the indicator a packed 24-bit RGB colour. -/
def rgb (r g b : Nat) : Nat := (r % 256) * 65536 + (g % 256) * 256 + b % 256

/-- The mode descriptor `StickMode`, with the default member initialisers of
the source. The curve reference is held by value. -/
structure StickMode where
  move : MovementMode
  curve : StickCurve
  indicator : Nat := rgb 255 0 0
  activeButtons : StdArray Bool 3 := ⟨[false, false, false], rfl⟩
  activeKey : Int := 0
  horDir : Int := INVERT_AXIS
  vertDir : Int := INVERT_AXIS
  chaseKey : Int := 0
  chaseMods : Int := 0
  motionThreshold : Int := 1
  deriving DecidableEq

namespace StickMode

/-- Member `hasButtons`: `activeButtons[0] || activeButtons[1] || activeButtons[2]`. -/
def hasButtons (s : StickMode) : Bool :=
  s.activeButtons.get 0 || s.activeButtons.get 1 || s.activeButtons.get 2

/-- Member `hasKey`: `return activeKey;`, the conversion of an `int` to `bool`. -/
def hasKey (s : StickMode) : Bool := s.activeKey != 0

end StickMode

/-- The conversion of an integral value to `int16_t`: the value is reduced
modulo `2^16` into `[-32768, 32767]` (the spec's "silent truncation"). -/
def toInt16 (n : Int) : Int := (n + 32768) % 65536 - 32768

/-- Rounding to the nearest integer, halfway cases away from zero, as the
`round` of the C++ standard library does. -/
noncomputable def cround (v : ℝ) : Int :=
  if 0 ≤ v then ⌊v + 1 / 2⌋ else -⌊-v + 1 / 2⌋

/-- Modelled from the spec: `exp_entry` of `helpers.hpp`, which is not part of
the sources at hand; the spec gives the entry value as
"round(maxSpeed * x^(expCoef)), cast to a signed 16-bit integer". -/
noncomputable def exp_entry (expCoef x maxSpeed : ℝ) : Int :=
  toInt16 (cround (maxSpeed * x ^ expCoef))

/-- The curve generator `make_curve`: the loop writes `retval[i]` for
`i = 0, 1, ..., retval.size() - 1` in turn. -/
noncomputable def make_curve (maxSpeed expCoef : ℝ) : StickCurve :=
  let retval : StickCurve := StdArray.fill 10 0
  let step : ℝ := 1 / ((retval.size - 1 : Nat) : ℝ)
  (List.range retval.size).foldl
    (fun r i => r.set i (exp_entry expCoef ((i : ℝ) * step) maxSpeed)) retval

/-- The call `make_curve(maxSpeed)` with the default argument `expCoef = 0.4f`. -/
noncomputable def make_curve_default (maxSpeed : ℝ) : StickCurve :=
  make_curve maxSpeed (2 / 5)

namespace detail

/-- Modelled from the spec: `detail::concatArray` of `helpers.hpp`, which is
not part of the sources at hand; the spec has the two per-stick sequences
"concatenated into one contiguous, insertion-ordered sequence". -/
def concatArray {T : Type} {N1 N2 : Nat} (a : StdArray T N1) (b : StdArray T N2) :
    StdArray T (N1 + N2) :=
  ⟨a.val ++ b.val, by simp [a.property, b.property]⟩

end detail

/-- The table `ModeMap<STICK_A_MODES, STICK_B_MODES>`; its only member is the
array `modes` of `STICK_A_MODES + STICK_B_MODES` slots. -/
structure ModeMap (STICK_A_MODES STICK_B_MODES : Nat) where
  modes : StdArray StickMode (STICK_A_MODES + STICK_B_MODES)

namespace ModeMap

variable {STICK_A_MODES STICK_B_MODES : Nat}

/-- The constructor `ModeMap(aModes, bModes)`. -/
def ctor (aModes : StdArray StickMode STICK_A_MODES)
    (bModes : StdArray StickMode STICK_B_MODES) : ModeMap STICK_A_MODES STICK_B_MODES :=
  ⟨detail.concatArray aModes bModes⟩

/-- Member `count`. -/
def count (_m : ModeMap STICK_A_MODES STICK_B_MODES) (stick : Int) : Int :=
  if stick = 0 then (STICK_A_MODES : Int) else (STICK_B_MODES : Int)

/-- Member `getMode`: an unchecked read of `modes`. -/
def getMode (m : ModeMap STICK_A_MODES STICK_B_MODES) (stick modeIndex : Int) :
    Option StickMode :=
  if stick = 0 then m.modes.subscript modeIndex
  else m.modes.subscript ((STICK_A_MODES : Int) + modeIndex)

/-- The table slot that `getMode` addresses: the index expression inside
`modes[...]` on each branch of `getMode`, `modeIndex` for stick 0 and
`STICK_A_MODES + modeIndex` otherwise. -/
def slot (_m : ModeMap STICK_A_MODES STICK_B_MODES) (stick modeIndex : Int) : Int :=
  if stick = 0 then modeIndex else (STICK_A_MODES : Int) + modeIndex

end ModeMap

/-- The helper `declare_mode_map`: the table sizes are the sizes of the two
arguments. -/
def declare_mode_map {A B : Nat} (aModes : StdArray StickMode A)
    (bModes : StdArray StickMode B) : ModeMap A B :=
  ModeMap.ctor aModes bModes

/-- A sample mode: plain motion on an all-zero curve, every other member at
its default. -/
def sampleModeA : StickMode := { move := MovementMode.SIMPLE, curve := StdArray.fill 10 0 }

/-- A sample mode that differs from `sampleModeA`: scrolling with key 7 held. -/
def sampleModeB : StickMode :=
  { move := MovementMode.SCROLL, curve := StdArray.fill 10 0, activeKey := 7 }

/-- A `ModeMap<1, 1>`: `sampleModeA` for stick 0 and `sampleModeB` for stick 1. -/
def sampleMap : ModeMap 1 1 := ⟨⟨[sampleModeA, sampleModeB], rfl⟩⟩

/-! ## Helper lemmas -/

theorem subscript_natCast {T : Type} {N : Nat} (a : StdArray T N) (k : Nat) :
    a.subscript (k : Int) = a.val[k]? := by
  simp [StdArray.subscript]

theorem get_eq_getElem? {T : Type} {N : Nat} (a : StdArray T N) (i : Fin N) :
    a.val[i.val]? = some (a.get i) := by
  have h : i.val < a.val.length := by have := a.property; have := i.isLt; omega
  simp [StdArray.get, List.getElem?_eq_getElem h]

theorem getMode_eq_subscript_slot {A B : Nat} (m : ModeMap A B) (stick modeIndex : Int) :
    m.getMode stick modeIndex = m.modes.subscript (m.slot stick modeIndex) := by
  unfold ModeMap.getMode ModeMap.slot
  split_ifs <;> rfl

theorem subscript_isSome_iff {T : Type} {N : Nat} (a : StdArray T N) (k : Int) :
    (a.subscript k).isSome = true ↔ 0 ≤ k ∧ k < (N : Int) := by
  have hlen : a.val.length = N := a.property
  unfold StdArray.subscript
  split_ifs with h
  · rw [Option.isSome_iff_ne_none, ne_eq, List.getElem?_eq_none_iff]
    constructor
    · intro hk; omega
    · intro hk; omega
  · constructor
    · intro hk; cases hk
    · intro hk; omega

theorem toInt16_of_range (n : Int) (h1 : -32768 ≤ n) (h2 : n ≤ 32767) : toInt16 n = n := by
  unfold toInt16; omega

theorem floor_half : ⌊(1 / 2 : ℝ)⌋ = 0 := by
  rw [Int.floor_eq_iff]
  constructor <;> norm_num

theorem cround_zero : cround 0 = 0 := by
  unfold cround
  rw [if_pos (le_refl (0 : ℝ)), zero_add, floor_half]

theorem cround_intCast (n : Int) : cround (n : ℝ) = n := by
  unfold cround
  have hfl : ∀ k : Int, ⌊(k : ℝ) + 1 / 2⌋ = k := by
    intro k
    rw [Int.floor_eq_iff]
    constructor <;> linarith
  split_ifs with h
  · exact hfl n
  · have := hfl (-n)
    push_cast at this
    rw [this]; ring

theorem cround_neg (v : ℝ) : cround (-v) = -cround v := by
  unfold cround
  rcases lt_trichotomy v 0 with h | h | h
  · have h1 : (0 : ℝ) ≤ -v := by linarith
    have h2 : ¬ (0 : ℝ) ≤ v := by linarith
    simp [h1, h2]
  · subst h
    rw [neg_zero, if_pos (le_refl (0 : ℝ)), zero_add, floor_half]; simp
  · have h1 : ¬ (0 : ℝ) ≤ -v := by linarith
    have h2 : (0 : ℝ) ≤ v := by linarith
    simp [h1, h2]

theorem cround_nonneg {v : ℝ} (h : 0 ≤ v) : 0 ≤ cround v := by
  unfold cround
  rw [if_pos h]
  exact Int.floor_nonneg.mpr (by linarith)

theorem cround_mono {a b : ℝ} (h : a ≤ b) : cround a ≤ cround b := by
  by_cases ha : 0 ≤ a
  · have hb : 0 ≤ b := le_trans ha h
    unfold cround
    rw [if_pos ha, if_pos hb]
    exact Int.floor_le_floor (by linarith)
  · by_cases hb : 0 ≤ b
    · have h1 : cround a ≤ 0 := by
        have := cround_nonneg (v := -a) (by linarith)
        rw [cround_neg] at this; omega
      exact le_trans h1 (cround_nonneg hb)
    · unfold cround
      rw [if_neg ha, if_neg hb]
      have h3 : ⌊-b + 1 / 2⌋ ≤ ⌊-a + 1 / 2⌋ := Int.floor_le_floor (by linarith)
      omega

theorem make_curve_val (maxSpeed expCoef : ℝ) :
    (make_curve maxSpeed expCoef).val =
      (List.range 10).map (fun i => exp_entry expCoef ((i : ℝ) * (1 / 9)) maxSpeed) := by
  simp [make_curve, StdArray.size, StdArray.fill, StdArray.set, List.range_succ,
    List.replicate]

theorem make_curve_get (maxSpeed expCoef : ℝ) (i : Fin 10) :
    (make_curve maxSpeed expCoef).get i =
      exp_entry expCoef ((i.val : ℝ) * (1 / 9)) maxSpeed := by
  have h := make_curve_val maxSpeed expCoef
  fin_cases i <;> simp [StdArray.get, h, List.range_succ]

theorem sample_mem (i : Fin 10) :
    0 ≤ (i.val : ℝ) * (1 / 9) ∧ (i.val : ℝ) * (1 / 9) ≤ 1 := by
  have h9 : (i.val : ℝ) ≤ 9 := by
    have h : i.val ≤ 9 := by have := i.isLt; omega
    exact_mod_cast h
  have h0 : (0 : ℝ) ≤ (i.val : ℝ) := Nat.cast_nonneg _
  constructor <;> linarith

theorem shape_mem {x e : ℝ} (hx0 : 0 ≤ x) (hx1 : x ≤ 1) (he : 0 ≤ e) :
    0 ≤ x ^ e ∧ x ^ e ≤ 1 :=
  ⟨Real.rpow_nonneg hx0 e, Real.rpow_le_one hx0 hx1 he⟩

theorem cround_scaled_nonneg {m t : ℝ} (hm : 0 ≤ m) (ht0 : 0 ≤ t) (ht1 : t ≤ 1) :
    0 ≤ cround (m * t) ∧ cround (m * t) ≤ cround m :=
  ⟨cround_nonneg (mul_nonneg hm ht0), cround_mono (mul_le_of_le_one_right hm ht1)⟩

theorem cround_scaled_nonpos {m t : ℝ} (hm : m ≤ 0) (ht0 : 0 ≤ t) (ht1 : t ≤ 1) :
    cround m ≤ cround (m * t) ∧ cround (m * t) ≤ 0 := by
  have h := cround_scaled_nonneg (neg_nonneg.mpr hm) ht0 ht1
  rw [neg_mul, cround_neg, cround_neg] at h
  omega

theorem cround_sample_bounds (m e : ℝ) (he : 0 ≤ e) (i : Fin 10) :
    (0 ≤ cround (m * ((i.val : ℝ) * (1 / 9)) ^ e) ∧
        cround (m * ((i.val : ℝ) * (1 / 9)) ^ e) ≤ cround m) ∨
      (cround m ≤ cround (m * ((i.val : ℝ) * (1 / 9)) ^ e) ∧
        cround (m * ((i.val : ℝ) * (1 / 9)) ^ e) ≤ 0) := by
  obtain ⟨hx0, hx1⟩ := sample_mem i
  obtain ⟨ht0, ht1⟩ := shape_mem hx0 hx1 he
  rcases le_total 0 m with hm | hm
  · exact Or.inl (cround_scaled_nonneg hm ht0 ht1)
  · exact Or.inr (cround_scaled_nonpos hm ht0 ht1)

theorem exp_entry_sample_exact (m e : ℝ) (he : 0 ≤ e) (i : Fin 10)
    (h1 : -32768 ≤ cround m) (h2 : cround m ≤ 32767) :
    exp_entry e ((i.val : ℝ) * (1 / 9)) m = cround (m * ((i.val : ℝ) * (1 / 9)) ^ e) := by
  unfold exp_entry
  apply toInt16_of_range
  · rcases cround_sample_bounds m e he i with h | h <;> omega
  · rcases cround_sample_bounds m e he i with h | h <;> omega

theorem cround_eq_of_mem {v : ℝ} {n : Int} (h0 : 0 ≤ v) (h1 : (n : ℝ) - 1 / 2 ≤ v)
    (h2 : v < (n : ℝ) + 1 / 2) : cround v = n := by
  unfold cround
  rw [if_pos h0, Int.floor_eq_iff]
  constructor <;> linarith

theorem cround_hundred : cround 100 = 100 := by
  have h := cround_intCast 100
  simpa using h

theorem default_shape_pow_five (x : ℝ) (hx : 0 ≤ x) : (x ^ (2 / 5 : ℝ)) ^ 5 = x ^ 2 := by
  rw [← Real.rpow_natCast (x ^ (2 / 5 : ℝ)) 5, ← Real.rpow_mul hx]
  have h : (2 / 5 : ℝ) * ((5 : ℕ) : ℝ) = ((2 : ℕ) : ℝ) := by norm_num
  rw [h, Real.rpow_natCast]

theorem default_shape_at_five :
    (157 / 200 : ℝ) ≤ (((5 : ℕ) : ℝ) * (1 / 9)) ^ (2 / 5 : ℝ) ∧
      (((5 : ℕ) : ℝ) * (1 / 9)) ^ (2 / 5 : ℝ) < (159 / 200 : ℝ) := by
  have hx : (0 : ℝ) ≤ ((5 : ℕ) : ℝ) * (1 / 9) := by norm_num
  have hy : 0 ≤ (((5 : ℕ) : ℝ) * (1 / 9)) ^ (2 / 5 : ℝ) := Real.rpow_nonneg hx _
  have h5 := default_shape_pow_five _ hx
  constructor
  · by_contra hlt
    push_neg at hlt
    have := pow_lt_pow_left₀ hlt hy (by norm_num : (5 : ℕ) ≠ 0)
    rw [h5] at this
    norm_num at this
  · by_contra hge
    push_neg at hge
    have := pow_le_pow_left₀ (by norm_num : (0 : ℝ) ≤ 159 / 200) hge 5
    rw [h5] at this
    norm_num at this

/-! ## The mode registry -/

/-- C1: round trip of the mode registry. For all mode sequences `aModes` of
length `A` and `bModes` of length `B`, the map `declare_mode_map aModes bModes`
returns `aModes[i]` for `getMode(0, i)` at every `i < A` and `bModes[j]` for
`getMode(1, j)` at every `j < B`. -/
theorem declare_mode_map_round_trip {A B : Nat} (aModes : StdArray StickMode A)
    (bModes : StdArray StickMode B) :
    (∀ i : Fin A,
      (declare_mode_map aModes bModes).getMode 0 (i.val : Int) = some (aModes.get i)) ∧
    (∀ j : Fin B,
      (declare_mode_map aModes bModes).getMode 1 (j.val : Int) = some (bModes.get j)) := by
  constructor
  · intro i
    have hi : i.val < aModes.val.length := by
      have := aModes.property; have := i.isLt; omega
    simp only [declare_mode_map, ModeMap.ctor, ModeMap.getMode, if_true,
      subscript_natCast, detail.concatArray]
    rw [List.getElem?_append_left hi]
    exact get_eq_getElem? aModes i
  · intro j
    have hA : aModes.val.length = A := aModes.property
    have h10 : ¬ ((1 : Int) = 0) := by decide
    have hcast : (A : Int) + (j.val : Int) = ((A + j.val : Nat) : Int) := by push_cast; rfl
    simp only [declare_mode_map, ModeMap.ctor, ModeMap.getMode, if_neg h10, hcast,
      subscript_natCast, detail.concatArray]
    rw [List.getElem?_append_right (by omega)]
    have hsub : A + j.val - aModes.val.length = j.val := by omega
    rw [hsub]
    exact get_eq_getElem? bModes j

/-- C2: for all mode sequences of lengths `A` and `B`, the map built by
`declare_mode_map` has `count(0) == A` and `count(1) == B`. -/
theorem declare_mode_map_count {A B : Nat} (aModes : StdArray StickMode A)
    (bModes : StdArray StickMode B) :
    (declare_mode_map aModes bModes).count 0 = (A : Int) ∧
    (declare_mode_map aModes bModes).count 1 = (B : Int) := by
  constructor <;> simp [ModeMap.count]

/-- C3, as stated, fails: on a map with one mode per stick, the one-past-the-end
request `getMode(0, count(0))` does not fail; it returns the mode of stick 1. -/
theorem getMode_one_past_end_returns_mode :
    sampleMap.count 0 = 1 ∧ sampleMap.getMode 0 (sampleMap.count 0) = some sampleModeB ∧
      sampleMap.getMode 0 (sampleMap.count 0) ≠ none := by
  refine ⟨rfl, rfl, ?_⟩
  intro h
  cases h

/-- C3, amended: `getMode(0, count(0))` is not range-checked. It reads the
table slot that `getMode(1, 0)` reads, which holds a mode exactly when stick 1
has at least one mode; otherwise the read falls outside the table. -/
theorem getMode_one_past_end_aliases {A B : Nat} (m : ModeMap A B) :
    m.getMode 0 (m.count 0) = m.getMode 1 0 ∧
    ((m.getMode 0 (m.count 0)).isSome = true ↔ 0 < m.count 1) ∧
    (m.getMode 0 (m.count 0) = none ↔ m.count 1 = 0) := by
  have hlen : m.modes.val.length = A + B := m.modes.property
  have h10 : ¬ ((1 : Int) = 0) := by decide
  have hget : m.getMode 0 (m.count 0) = m.modes.val[A]? := by
    simp only [ModeMap.getMode, ModeMap.count, if_true, subscript_natCast]
  refine ⟨?_, ?_, ?_⟩
  · rw [hget]
    simp only [ModeMap.getMode, if_neg h10, add_zero, subscript_natCast]
  · rw [hget]
    simp only [ModeMap.count, if_neg h10]
    rw [Option.isSome_iff_ne_none, ne_eq, List.getElem?_eq_none_iff]
    constructor
    · intro h; omega
    · intro h; omega
  · rw [hget]
    simp only [ModeMap.count, if_neg h10]
    rw [List.getElem?_eq_none_iff]
    constructor
    · intro h; omega
    · intro h; omega

/-! ## The mode descriptor -/

/-- C7: `hasButtons()` is true exactly when at least one of the three flags of
`activeButtons` is true, and a mode built with the default `activeButtons` has
`hasButtons() == false`, whatever its other members. -/
theorem hasButtons_iff :
    (∀ s : StickMode, s.hasButtons = true ↔ ∃ i : Fin 3, s.activeButtons.get i = true) ∧
    (∀ (mv : MovementMode) (c : StickCurve) (ind : Nat) (key hd vd ck cm mt : Int),
      StickMode.hasButtons
        { move := mv, curve := c, indicator := ind, activeKey := key, horDir := hd,
          vertDir := vd, chaseKey := ck, chaseMods := cm, motionThreshold := mt } = false) := by
  constructor
  · intro s
    simp only [StickMode.hasButtons, Bool.or_eq_true]
    constructor
    · rintro ((h | h) | h)
      · exact ⟨0, h⟩
      · exact ⟨1, h⟩
      · exact ⟨2, h⟩
    · rintro ⟨i, h⟩
      fin_cases i
      · exact Or.inl (Or.inl h)
      · exact Or.inl (Or.inr h)
      · exact Or.inr h
  · intros
    rfl

/-- C8: `hasKey()` is true exactly when `activeKey != 0`, for every value of
`activeKey`, negative ones included, and a mode built with the default
`activeKey` has `hasKey() == false`, whatever its other members. -/
theorem hasKey_iff :
    (∀ s : StickMode, s.hasKey = true ↔ s.activeKey ≠ 0) ∧
    (∀ (mv : MovementMode) (c : StickCurve) (ind : Nat) (btn : StdArray Bool 3)
        (hd vd ck cm mt : Int),
      StickMode.hasKey
        { move := mv, curve := c, indicator := ind, activeButtons := btn, horDir := hd,
          vertDir := vd, chaseKey := ck, chaseMods := cm, motionThreshold := mt } = false) := by
  constructor
  · intro s
    simp [StickMode.hasKey]
  · intros
    rfl

/-! ## The curve generator -/

/-- C4, as stated, fails in two ways: with `expCoef = 0` the first entry is
`round(maxSpeed)`, not `0` (shown at `maxSpeed = 1`), and with `maxSpeed = 40000`
the last entry is `-25536`, while `round(maxSpeed)` is `40000`. -/
theorem make_curve_endpoints_fail :
    (make_curve 1 0).get 0 = 1 ∧
    (make_curve 40000 1).get 9 = -25536 ∧ cround 40000 = 40000 := by
  have h1 : cround 1 = 1 := by
    have := cround_intCast 1
    simpa using this
  have h2 : cround 40000 = 40000 := by
    have := cround_intCast 40000
    simpa using this
  refine ⟨?_, ?_, h2⟩
  · rw [make_curve_get]
    simp [exp_entry, h1]
    decide
  · have hv : ((9 : Fin 10) : ℕ) = 9 := rfl
    rw [make_curve_get, hv]
    have hx : (40000 : ℝ) * (((9 : ℕ) : ℝ) * (1 / 9)) ^ (1 : ℝ) = 40000 := by norm_num
    rw [exp_entry, hx, h2]
    decide

/-- C4, amended: for every `maxSpeed`, the first entry of the curve is `0`
whenever `expCoef > 0`, and the last entry is `round(maxSpeed)` whenever that
rounded value lies in `[-32768, 32767]`. -/
theorem make_curve_endpoints (maxSpeed expCoef : ℝ) :
    (0 < expCoef → (make_curve maxSpeed expCoef).get 0 = 0) ∧
    (-32768 ≤ cround maxSpeed → cround maxSpeed ≤ 32767 →
      (make_curve maxSpeed expCoef).get 9 = cround maxSpeed) := by
  constructor
  · intro he
    rw [make_curve_get]
    simp [exp_entry, Real.zero_rpow (ne_of_gt he), cround_zero]
    decide
  · intro h1 h2
    rw [make_curve_get]
    have hv : ((9 : Fin 10) : ℕ) = 9 := rfl
    have h9 : (((9 : ℕ) : ℝ)) * (1 / 9) = 1 := by norm_num
    rw [hv, h9]
    simp only [exp_entry, Real.one_rpow, mul_one]
    exact toInt16_of_range _ h1 h2

/-- Witness for C4, amended, at `maxSpeed = 100` and `expCoef = 0.4`. -/
theorem make_curve_endpoints_witness :
    (0 : ℝ) < 2 / 5 ∧ -32768 ≤ cround 100 ∧ cround 100 ≤ 32767 ∧
      (make_curve 100 (2 / 5)).get 0 = 0 ∧ (make_curve 100 (2 / 5)).get 9 = cround 100 := by
  have h : cround 100 = 100 := by
    have := cround_intCast 100
    simpa using this
  have h1 : -32768 ≤ cround 100 := by rw [h]; decide
  have h2 : cround 100 ≤ 32767 := by rw [h]; decide
  exact ⟨by norm_num, h1, h2, (make_curve_endpoints 100 (2 / 5)).1 (by norm_num),
    (make_curve_endpoints 100 (2 / 5)).2 h1 h2⟩

/-- C5, as stated, fails: with `maxSpeed = 40000` and `expCoef = 1`, both
positive, entry 7 of the curve is `31111` and entry 8 is `-29980`. -/
theorem make_curve_monotone_fail :
    (make_curve 40000 1).get 7 = 31111 ∧ (make_curve 40000 1).get 8 = -29980 := by
  have h7 : ((7 : Fin 10) : ℕ) = 7 := rfl
  have h8 : ((8 : Fin 10) : ℕ) = 8 := rfl
  have c7 : cround (40000 * (((7 : ℕ) : ℝ) * (1 / 9)) ^ (1 : ℝ)) = 31111 := by
    apply cround_eq_of_mem <;> norm_num
  have c8 : cround (40000 * (((8 : ℕ) : ℝ) * (1 / 9)) ^ (1 : ℝ)) = 35556 := by
    apply cround_eq_of_mem <;> norm_num
  constructor
  · rw [make_curve_get, h7, exp_entry, c7]
    decide
  · rw [make_curve_get, h8, exp_entry, c8]
    decide

/-- C5, amended: for every `maxSpeed > 0` whose rounded value is at most `32767`
and every `expCoef > 0`, the curve is non-decreasing: entry `i` is at most entry
`i + 1` for every `0 <= i < 9`. -/
theorem make_curve_monotone (maxSpeed expCoef : ℝ) (hm : 0 < maxSpeed) (he : 0 < expCoef)
    (hfit : cround maxSpeed ≤ 32767) (i : Fin 9) :
    (make_curve maxSpeed expCoef).get i.castSucc ≤
      (make_curve maxSpeed expCoef).get i.succ := by
  have hlo : -32768 ≤ cround maxSpeed := by
    have := cround_nonneg hm.le
    omega
  rw [make_curve_get, make_curve_get,
    exp_entry_sample_exact _ _ he.le _ hlo hfit, exp_entry_sample_exact _ _ he.le _ hlo hfit]
  apply cround_mono
  apply mul_le_mul_of_nonneg_left _ hm.le
  apply Real.rpow_le_rpow (sample_mem i.castSucc).1 _ he.le
  simp only [Fin.coe_castSucc, Fin.val_succ]
  push_cast
  linarith

/-- Witness for C5, amended, at `maxSpeed = 100`, `expCoef = 0.4`, `i = 4`. -/
theorem make_curve_monotone_witness :
    (0 : ℝ) < 100 ∧ (0 : ℝ) < 2 / 5 ∧ cround 100 ≤ 32767 ∧
      (make_curve 100 (2 / 5)).get (4 : Fin 9).castSucc ≤
        (make_curve 100 (2 / 5)).get (4 : Fin 9).succ := by
  have h2 : cround 100 ≤ 32767 := by rw [cround_hundred]; decide
  exact ⟨by norm_num, by norm_num, h2,
    make_curve_monotone 100 (2 / 5) (by norm_num) (by norm_num) h2 4⟩

/-- C6: `make_curve` returns exactly 10 entries; entry `i` is
`round(maxSpeed * x^expCoef)` cast to `int16_t`, where `x = i * step` and
`step = 1/9`; an omitted `expCoef` is `0.4`; and for `maxSpeed = 100` with the
default `expCoef`, entry 5 is `round(100 * (5/9)^0.4)`, which is `79`. -/
theorem make_curve_entries (maxSpeed expCoef : ℝ) :
    (make_curve maxSpeed expCoef).val.length = 10 ∧
    (make_curve maxSpeed expCoef).size = 10 ∧
    (∀ i : Fin 10, (make_curve maxSpeed expCoef).get i =
      toInt16 (cround (maxSpeed * ((i.val : ℝ) * (1 / 9)) ^ expCoef))) ∧
    make_curve_default maxSpeed = make_curve maxSpeed (2 / 5) ∧
    (make_curve_default 100).get 5 = toInt16 (cround (100 * ((5 : ℝ) * (1 / 9)) ^ (2 / 5 : ℝ))) ∧
    (make_curve_default 100).get 5 = 79 := by
  have h5 : ((5 : Fin 10) : ℕ) = 5 := rfl
  have c5 : cround (100 * (((5 : ℕ) : ℝ) * (1 / 9)) ^ (2 / 5 : ℝ)) = 79 := by
    obtain ⟨hlo, hhi⟩ := default_shape_at_five
    apply cround_eq_of_mem
    · linarith
    · push_cast; linarith
    · push_cast; linarith
  refine ⟨(make_curve maxSpeed expCoef).property, rfl, ?_, rfl, ?_, ?_⟩
  · intro i
    rw [make_curve_get, exp_entry]
  · rw [make_curve_default, make_curve_get, h5, exp_entry]
    norm_num
  · rw [make_curve_default, make_curve_get, h5, exp_entry, c5]
    decide

/-- C9, as stated, fails: with `maxSpeed = 32768`, `expCoef = 1` and `i = 9`,
the entry of `make_curve(-maxSpeed, expCoef)` is `-32768`, and so is the entry
of `make_curve(maxSpeed, expCoef)`, whose negation `32768` is no `int16_t`. -/
theorem make_curve_negate_fail :
    (make_curve (-32768) 1).get 9 = -32768 ∧ (make_curve 32768 1).get 9 = -32768 ∧
      (make_curve (-32768) 1).get 9 ≠ -(make_curve 32768 1).get 9 := by
  have hv : ((9 : Fin 10) : ℕ) = 9 := rfl
  have hc : cround 32768 = 32768 := by
    have h := cround_intCast 32768
    simpa using h
  have hx : (32768 : ℝ) * (((9 : ℕ) : ℝ) * (1 / 9)) ^ (1 : ℝ) = 32768 := by norm_num
  have hneg : (make_curve (-32768) 1).get 9 = -32768 := by
    rw [make_curve_get, hv, exp_entry, neg_mul, hx, cround_neg, hc]
    decide
  have hpos : (make_curve 32768 1).get 9 = -32768 := by
    rw [make_curve_get, hv, exp_entry, hx, hc]
    decide
  refine ⟨hneg, hpos, ?_⟩
  rw [hneg, hpos]
  decide

/-- C9, amended: negating the maximum speed inverts the curve whenever the
rounded maximum speed lies in `[-32767, 32767]`: for every such `maxSpeed`,
every `expCoef > 0` and every index `i` in `0..9`, entry `i` of
`make_curve(-maxSpeed, expCoef)` is the negation of entry `i` of
`make_curve(maxSpeed, expCoef)`. -/
theorem make_curve_negate (maxSpeed expCoef : ℝ) (he : 0 < expCoef)
    (hlo : -32767 ≤ cround maxSpeed) (hhi : cround maxSpeed ≤ 32767) (i : Fin 10) :
    (make_curve (-maxSpeed) expCoef).get i = -(make_curve maxSpeed expCoef).get i := by
  have hn := cround_neg maxSpeed
  rw [make_curve_get, make_curve_get,
    exp_entry_sample_exact _ _ he.le _ (by omega) (by omega),
    exp_entry_sample_exact _ _ he.le _ (by omega) hhi, neg_mul, cround_neg]

/-- Witness for C9, amended, at `maxSpeed = 100`, `expCoef = 0.4`, `i = 5`. -/
theorem make_curve_negate_witness :
    (0 : ℝ) < 2 / 5 ∧ -32767 ≤ cround 100 ∧ cround 100 ≤ 32767 ∧
      (make_curve (-100) (2 / 5)).get 5 = -(make_curve 100 (2 / 5)).get 5 := by
  have h1 : -32767 ≤ cround 100 := by rw [cround_hundred]; decide
  have h2 : cround 100 ≤ 32767 := by rw [cround_hundred]; decide
  exact ⟨by norm_num, h1, h2, make_curve_negate 100 (2 / 5) (by norm_num) h1 h2 5⟩

/-- C10: no truncation inside the `int16_t` range. For every `expCoef > 0` and
every `maxSpeed` whose rounded value lies in `[-32768, 32767]`, every entry of the
curve has magnitude at most `|round(maxSpeed)|`, the rounded value of each of
the 10 samples lies in `[-32768, 32767]`, and the cast to `int16_t` leaves it
unchanged, so the entry is that rounded value. -/
theorem make_curve_no_truncation (maxSpeed expCoef : ℝ) (he : 0 < expCoef)
    (hlo : -32768 ≤ cround maxSpeed) (hhi : cround maxSpeed ≤ 32767) (i : Fin 10) :
    |(make_curve maxSpeed expCoef).get i| ≤ |cround maxSpeed| ∧
    -32768 ≤ cround (maxSpeed * ((i.val : ℝ) * (1 / 9)) ^ expCoef) ∧
    cround (maxSpeed * ((i.val : ℝ) * (1 / 9)) ^ expCoef) ≤ 32767 ∧
    toInt16 (cround (maxSpeed * ((i.val : ℝ) * (1 / 9)) ^ expCoef)) =
      cround (maxSpeed * ((i.val : ℝ) * (1 / 9)) ^ expCoef) ∧
    (make_curve maxSpeed expCoef).get i =
      cround (maxSpeed * ((i.val : ℝ) * (1 / 9)) ^ expCoef) := by
  have hb := cround_sample_bounds maxSpeed expCoef he.le i
  have hex := exp_entry_sample_exact maxSpeed expCoef he.le i hlo hhi
  have hget := make_curve_get maxSpeed expCoef i
  rw [hex] at hget
  refine ⟨?_, ?_, ?_, ?_, hget⟩
  · rw [hget]
    rcases hb with h | h
    · rw [abs_of_nonneg h.1, abs_of_nonneg (le_trans h.1 h.2)]
      exact h.2
    · rw [abs_of_nonpos h.2, abs_of_nonpos (le_trans h.1 h.2)]
      omega
  · rcases hb with h | h <;> omega
  · rcases hb with h | h <;> omega
  · apply toInt16_of_range
    · rcases hb with h | h <;> omega
    · rcases hb with h | h <;> omega

/-- Witness for C10 at `maxSpeed = 100`, `expCoef = 0.4`, `i = 5`. -/
theorem make_curve_no_truncation_witness :
    (0 : ℝ) < 2 / 5 ∧ -32768 ≤ cround 100 ∧ cround 100 ≤ 32767 ∧
      |(make_curve 100 (2 / 5)).get 5| ≤ |cround 100| ∧
      (make_curve 100 (2 / 5)).get 5 =
        cround (100 * ((((5 : Fin 10).val : ℕ) : ℝ) * (1 / 9)) ^ (2 / 5 : ℝ)) := by
  have h1 : -32768 ≤ cround 100 := by rw [cround_hundred]; decide
  have h2 : cround 100 ≤ 32767 := by rw [cround_hundred]; decide
  have h := make_curve_no_truncation 100 (2 / 5) (by norm_num) h1 h2 5
  exact ⟨by norm_num, h1, h2, h.1, h.2.2.2.2⟩

/-! ## Slot addressing in the mode registry -/

/-- C11: stick-id fallthrough. For every map, every stick id `s != 0` (negative
ids and ids `>= 2` included) and every mode index `i`, `count(s)` equals
`count(1)` and `getMode(s, i)` addresses the same table slot, and reads the
same value, as `getMode(1, i)`. -/
theorem stick_id_fallthrough {A B : Nat} (m : ModeMap A B) (s i : Int) (hs : s ≠ 0) :
    m.count s = m.count 1 ∧ m.slot s i = m.slot 1 i ∧ m.getMode s i = m.getMode 1 i := by
  have h10 : ¬ ((1 : Int) = 0) := by decide
  refine ⟨?_, ?_, ?_⟩
  · simp only [ModeMap.count, if_neg hs, if_neg h10]
  · simp only [ModeMap.slot, if_neg hs, if_neg h10]
  · simp only [ModeMap.getMode, if_neg hs, if_neg h10]

/-- Witness for C11 on the sample map, at stick id `2` and mode index `0`. -/
theorem stick_id_fallthrough_witness :
    (2 : Int) ≠ 0 ∧ sampleMap.count 2 = sampleMap.count 1 ∧
      sampleMap.slot 2 0 = sampleMap.slot 1 0 ∧
      sampleMap.getMode 2 0 = sampleMap.getMode 1 0 :=
  ⟨by decide, stick_id_fallthrough sampleMap 2 0 (by decide)⟩

/-- C12: the table of a `ModeMap<A,B>` has exactly `A + B = count(0) + count(1)`
slots, and the slot that `getMode` addresses is a bijection from the in-range
pairs `(0, i)`, `0 <= i < A`, and `(1, j)`, `0 <= j < B`, onto the slot indices
`[0, A+B)`: stick 0 owns `[0, A)`, stick 1 owns `[A, A+B)`, and every in-range
access reads inside the table. -/
theorem slot_bijection {A B : Nat} (m : ModeMap A B) :
    m.modes.val.length = A + B ∧
    (m.modes.val.length : Int) = m.count 0 + m.count 1 ∧
    Set.BijOn (fun p : Int × Int => m.slot p.1 p.2)
      {p | (p.1 = 0 ∨ p.1 = 1) ∧ 0 ≤ p.2 ∧ p.2 < m.count p.1}
      (Set.Ico 0 ((A : Int) + (B : Int))) ∧
    Set.BijOn (fun i : Int => m.slot 0 i) (Set.Ico 0 (A : Int)) (Set.Ico 0 (A : Int)) ∧
    Set.BijOn (fun j : Int => m.slot 1 j) (Set.Ico 0 (B : Int))
      (Set.Ico (A : Int) ((A : Int) + (B : Int))) ∧
    (∀ p : Int × Int, (p.1 = 0 ∨ p.1 = 1) ∧ 0 ≤ p.2 ∧ p.2 < m.count p.1 →
      (m.getMode p.1 p.2).isSome = true ∧
      m.getMode p.1 p.2 = m.modes.val[(m.slot p.1 p.2).toNat]?) := by
  have hlen : m.modes.val.length = A + B := m.modes.property
  have h10 : ¬ ((1 : Int) = 0) := by decide
  have hc0 : m.count 0 = (A : Int) := by simp [ModeMap.count]
  have hc1 : m.count 1 = (B : Int) := by simp [ModeMap.count]
  have hs0 : ∀ i : Int, m.slot 0 i = i := by intro i; simp [ModeMap.slot]
  have hs1 : ∀ j : Int, m.slot 1 j = (A : Int) + j := by intro j; simp [ModeMap.slot]
  refine ⟨hlen, ?_, ⟨?_, ?_, ?_⟩, ⟨?_, ?_, ?_⟩, ⟨?_, ?_, ?_⟩, ?_⟩
  · rw [hlen, hc0, hc1]; push_cast; rfl
  · rintro ⟨s, i⟩ ⟨hs | hs, h0, h1⟩
    · simp only at hs h0 h1
      subst hs
      rw [hc0] at h1
      simp only [Set.mem_Ico, hs0]
      omega
    · simp only at hs h0 h1
      subst hs
      rw [hc1] at h1
      simp only [Set.mem_Ico, hs1]
      omega
  · rintro ⟨s, i⟩ ⟨hs | hs, h0, h1⟩ ⟨t, j⟩ ⟨ht | ht, g0, g1⟩ heq <;>
      simp only at hs h0 h1 ht g0 g1 heq <;> subst hs <;> subst ht <;>
      simp only [hs0, hs1, hc0, hc1] at h1 g1 heq
    · rw [heq]
    · omega
    · omega
    · have : i = j := by omega
      rw [this]
  · intro k hk
    simp only [Set.mem_Ico] at hk
    by_cases hkA : k < (A : Int)
    · refine ⟨(0, k), ⟨Or.inl rfl, hk.1, ?_⟩, ?_⟩
      · simp only [hc0]; exact hkA
      · simp only [hs0]
    · refine ⟨(1, k - (A : Int)), ⟨Or.inr rfl, ?_, ?_⟩, ?_⟩
      · simp only; omega
      · simp only [hc1]; omega
      · simp only [hs1]; omega
  · intro i hi
    simp only [Set.mem_Ico, hs0] at hi ⊢
    exact hi
  · intro i _ j _ heq
    simp only [hs0] at heq
    exact heq
  · intro k hk
    exact ⟨k, hk, hs0 k⟩
  · intro j hj
    simp only [Set.mem_Ico, hs1] at hj ⊢
    omega
  · intro i _ j _ heq
    simp only [hs1] at heq
    omega
  · intro k hk
    simp only [Set.mem_Ico] at hk
    refine ⟨k - (A : Int), ?_, ?_⟩
    · simp only [Set.mem_Ico]; omega
    · simp only [hs1]; omega
  · rintro ⟨s, i⟩ ⟨hs, h0, h1⟩
    simp only at hs h0 h1 ⊢
    have hrange : 0 ≤ m.slot s i ∧ m.slot s i < ((A + B : Nat) : Int) := by
      rcases hs with hs | hs <;> subst hs
      · rw [hc0] at h1; rw [hs0]; push_cast; omega
      · rw [hc1] at h1; rw [hs1]; push_cast; omega
    constructor
    · rw [getMode_eq_subscript_slot, subscript_isSome_iff]
      exact hrange
    · rw [getMode_eq_subscript_slot]
      unfold StdArray.subscript
      rw [if_pos hrange.1]

/-- Witness for C12 on the sample map: the in-range pair `(1, 0)` reads slot 1
of the table, inside its two slots. -/
theorem slot_bijection_witness :
    ((1 : Int) = 0 ∨ (1 : Int) = 1) ∧ (0 : Int) ≤ 0 ∧ (0 : Int) < sampleMap.count 1 ∧
      (sampleMap.getMode 1 0).isSome = true ∧
      sampleMap.getMode 1 0 = sampleMap.modes.val[(sampleMap.slot 1 0).toNat]? :=
  ⟨Or.inr rfl, le_refl 0, by decide,
    (slot_bijection sampleMap).2.2.2.2.2 (1, 0) ⟨Or.inr rfl, le_refl 0, by decide⟩⟩

/-- C13: out-of-range mode indices alias the other stick's range. For every
`ModeMap<A,B>`, `getMode(0, A + j)` addresses the slot of `getMode(1, j)` for
every `0 <= j < B`, and `getMode(1, i - A)`, a negative index on stick 1,
addresses the slot of `getMode(0, i)` for every `0 <= i < A`; in both cases the
read returns the mode stored there. -/
theorem getMode_out_of_range_aliases {A B : Nat} (m : ModeMap A B) :
    (∀ j : Fin B,
      m.count 0 ≤ (A : Int) + (j.val : Int) ∧
      m.slot 0 ((A : Int) + (j.val : Int)) = m.slot 1 (j.val : Int) ∧
      m.getMode 0 ((A : Int) + (j.val : Int)) = m.getMode 1 (j.val : Int) ∧
      (m.getMode 0 ((A : Int) + (j.val : Int))).isSome = true) ∧
    (∀ i : Fin A,
      (i.val : Int) - (A : Int) < 0 ∧
      m.slot 1 ((i.val : Int) - (A : Int)) = m.slot 0 (i.val : Int) ∧
      m.getMode 1 ((i.val : Int) - (A : Int)) = m.getMode 0 (i.val : Int) ∧
      (m.getMode 1 ((i.val : Int) - (A : Int))).isSome = true) := by
  have h10 : ¬ ((1 : Int) = 0) := by decide
  have hs0 : ∀ i : Int, m.slot 0 i = i := by intro i; simp [ModeMap.slot]
  have hs1 : ∀ j : Int, m.slot 1 j = (A : Int) + j := by intro j; simp [ModeMap.slot]
  constructor
  · intro j
    have hj := j.isLt
    have hslot : m.slot 0 ((A : Int) + (j.val : Int)) = m.slot 1 (j.val : Int) := by
      rw [hs0, hs1]
    refine ⟨?_, hslot, ?_, ?_⟩
    · simp only [ModeMap.count, if_true]; omega
    · rw [getMode_eq_subscript_slot, getMode_eq_subscript_slot, hslot]
    · rw [getMode_eq_subscript_slot, subscript_isSome_iff, hs0]
      push_cast; omega
  · intro i
    have hi := i.isLt
    have hslot : m.slot 1 ((i.val : Int) - (A : Int)) = m.slot 0 (i.val : Int) := by
      rw [hs0, hs1]; omega
    refine ⟨by omega, hslot, ?_, ?_⟩
    · rw [getMode_eq_subscript_slot, getMode_eq_subscript_slot, hslot]
    · rw [getMode_eq_subscript_slot, subscript_isSome_iff, hslot, hs0]
      push_cast; omega

end EzSticks
